import Mathlib

set_option linter.unusedVariables false

/-
Shallow embedding of the CP_DF_ALS engine from src/btas/generic/cp_df_als.h
(class btas::CP_DF_ALS).

Modelling conventions:
* double is modelled as ℚ; machine int and size_t as Int / Nat.
* BTAS_EXCEPTION aborts are modelled with Except CPError; each C++ message is
  mapped to the error constructor named by the design's error taxonomy.
* The rank-growth drivers (compute_rank lines 129-139, compute_error lines
  164-174, compute_geometric lines 202-222, build lines 420-608) are embedded
  at the level of the engine's rank bookkeeping: the factor-matrix set A is
  represented by its emptiness / current column count (A[0].extent(1)), the
  row extent of A[0] (A[0].extent(0), read by compute_error line 167), and the
  factors_set flag (line 395, initialized false and never assigned in the
  source).  ALS (lines 627-661) mutates factor VALUES but never the column
  count or emptiness of A, and its only statement writing epsilon (line 658)
  is commented out in the source, so for these drivers an ALS call is modelled
  by recording the rank at which it ran; the epsilon in/out parameter is
  threaded unchanged, exactly as the source leaves it.
* The per-mode update direct (lines 697-930), normCol (lines 958-1000),
  pseudoInverse (lines 1017-1073), reconstruct (lines 344-381) and
  get_factor_matrices (lines 330-335) are embedded value-level below.
* The code is taken as compiled with _HAS_INTEL_MKL defined (the constructor,
  lines 91-92, aborts unless a LAPACK backend is present).
-/

namespace BtasCPDF

/-- Error taxonomy for the BTAS_EXCEPTION aborts in cp_df_als.h. -/
inductive CPError
  | invalidArgument
  | notReady
  | unsupportedConfiguration
  | computationFailure
  | invalidSymmetry
deriving DecidableEq

instance {ε α : Type} [DecidableEq ε] [DecidableEq α] : DecidableEq (Except ε α) := fun x y =>
  match x, y with
  | .error a, .error b =>
    if h : a = b then .isTrue (by rw [h]) else .isFalse (by simp [h])
  | .ok a, .ok b =>
    if h : a = b then .isTrue (by rw [h]) else .isFalse (by simp [h])
  | .error _, .ok _ => .isFalse (by simp)
  | .ok _, .error _ => .isFalse (by simp)

/-- Rank-level view of the engine state.
`achieved = none` models `A.empty()`; `achieved = some r` models
`A[0].extent(1) = r` (the current CP rank).  `rows0` models `A[0].extent(0)`
(the row extent of factor 0, fixed by the reference-tensor mode extents;
compute_error line 167 reads it).  `factorsSet` models the member
`factors_set` (line 395), which is initialized false and never assigned
anywhere in the source file. -/
structure EngineState where
  achieved : Option Nat
  rows0 : Nat
  factorsSet : Bool
deriving DecidableEq

/-- Fueled version of the column-dimension loop header of build (line 542):
`for (auto i = start; i < rank; i += step)`.  The returned list holds the
value `i + 1` of each iteration: the rank at which that iteration's ALS call
(line 603) runs, which is also the column count the factor matrices are
extended to in that iteration.  Fuel `rank - start` is enough whenever
`step ≥ 1` (the loop index grows by at least 1 per iteration). -/
def rankStepsAux : Nat → Nat → Nat → Nat → List Nat
  | 0, _, _, _ => []
  | fuel + 1, i, rank, step =>
    if i < rank then (i + 1) :: rankStepsAux fuel (i + step) rank step else []

/-- Ranks at which build's stepwise loop runs ALS, starting from column count
`i` with target `rank` and increment `step`. -/
def rankSteps (i rank step : Nat) : List Nat :=
  rankStepsAux (rank - i) i rank step

/-- build (lines 420-608) at the rank-bookkeeping level.  Returns the new
state, the epsilon in/out parameter (passed through unchanged: the only
statement writing it, ALS line 658, is commented out in the source), and the
list of ranks at which ALS was invoked, in order:
* SVD seeding branch (lines 426-536): taken iff `A.empty() && SVD_initial_guess`;
  aborts if `SVD_rank == 0` (line 427), otherwise seeds the factor set at
  `SVD_rank` columns and runs one ALS at `SVD_rank` (line 535).
* Stepwise loop (lines 542-604): from the current column count (0 when A is
  empty) to `rank` in increments of `step`, one ALS per checkpoint (line 603).
* Forced extra sweep (lines 605-607): one ALS at `rank` iff `factors_set` is
  true and the stepwise loop ran no iteration. -/
def build (s : EngineState) (rank step : Nat) (svdGuess : Bool) (svdRank : Nat) (eps : ℚ) :
    Except CPError (EngineState × ℚ × List Nat) :=
  if s.achieved.isNone && svdGuess then
    if svdRank = 0 then .error .invalidArgument
    else
      let ranks := rankSteps svdRank rank step
      let s2 : EngineState :=
        match ranks.getLast? with
        | none => { s with achieved := some svdRank }
        | some r => { s with achieved := some r }
      let extra := if s2.factorsSet && ranks.isEmpty then [rank] else []
      .ok (s2, eps, svdRank :: (ranks ++ extra))
  else
    let start := match s.achieved with | none => 0 | some a => a
    let ranks := rankSteps start rank step
    let s2 : EngineState :=
      match ranks.getLast? with
      | none => s
      | some r => { s with achieved := some r }
    let extra := if s2.factorsSet && ranks.isEmpty then [rank] else []
    .ok (s2, eps, ranks ++ extra)

/-- compute_rank (lines 129-139).  The collaborator parameters converge_test,
max_als and fast_pI only influence ALS internals abstracted away at this
level; calculate_epsilon is threaded to ALS where its only use (line 658) is
commented out.  The pair returned is (engine state at return or at the throw
point, result): both guards (lines 132-133) fire before build, hence before
any mutation. -/
def compute_rank (s : EngineState) (rank step : Int) (svdGuess : Bool) (svdRank : Int)
    (calculateEpsilon : Bool) : EngineState × Except CPError ℚ :=
  if rank ≤ 0 then (s, .error .invalidArgument)
  else if svdGuess ∧ svdRank > rank then (s, .error .invalidArgument)
  else
    match build s rank.toNat step.toNat svdGuess svdRank.toNat (-1) with
    | .error e => (s, .error e)
    | .ok (s1, eps1, _) => (s1, .ok eps1)

/-- Initial value of the local `rank` in compute_error (line 167):
`(A.empty()) ? ((SVD_initial_guess) ? SVD_rank : 1) : A[0].extent(0)`.
Note the non-empty case reads extent(0), the ROW extent of factor 0. -/
def errStartRank (s : EngineState) (svdGuess : Bool) (svdRank : Nat) : Nat :=
  match s.achieved with
  | none => if svdGuess then svdRank else 1
  | some _ => s.rows0

/-- The list `[a, a+1, ..., a+n-1]` of consecutive naturals. -/
def natRange : Nat → Nat → List Nat
  | _, 0 => []
  | a, n + 1 => a :: natRange (a + 1) n

/-- The while loop of compute_error (lines 169-172):
`while (epsilon > tcutCP && rank < max_rank) { build(rank, ...); rank++; }`.
Fueled; returns the final state, the final epsilon, the final value of the
local `rank`, and the list of build target ranks in order. -/
def computeErrorLoop (tcut : ℚ) (step maxRank : Nat) (svdGuess : Bool) (svdRank : Nat) :
    Nat → Nat → EngineState → ℚ → Except CPError (EngineState × ℚ × Nat × List Nat)
  | 0, rank, s, eps => .ok (s, eps, rank, [])
  | fuel + 1, rank, s, eps =>
    if tcut < eps ∧ rank < maxRank then
      match build s rank step svdGuess svdRank eps with
      | .error e => .error e
      | .ok (s1, eps1, _) =>
        match computeErrorLoop tcut step maxRank svdGuess svdRank fuel (rank + 1) s1 eps1 with
        | .error e => .error e
        | .ok (s2, eps2, rank2, ts) => .ok (s2, eps2, rank2, rank :: ts)
    else .ok (s, eps, rank, [])

/-- compute_error (lines 164-174): `epsilon` starts at `tcutCP + 1` (line 168)
and the loop builds and increments `rank` by one per round (line 171).  Fuel
`maxRank` bounds the loop, which runs at most `maxRank - rank0` rounds. -/
def compute_error (s : EngineState) (tcut : ℚ) (step maxRank : Nat) (svdGuess : Bool)
    (svdRank : Nat) : Except CPError (EngineState × ℚ × Nat × List Nat) :=
  computeErrorLoop tcut step maxRank svdGuess svdRank maxRank
    (errStartRank s svdGuess svdRank) s (tcut + 1)

/-- The while loop of compute_geometric (lines 214-220):
`while (rank <= desired_rank && rank < max_als) { build(...); rank updated }`
where the update is `rank++` when `geometric_step <= 1` and
`rank *= geometric_step` otherwise (lines 216-219). -/
def computeGeomLoop (svdGuess : Bool) (svdRank : Nat) (desired maxAls gstep : Int) :
    Nat → Int → EngineState → ℚ → EngineState × Except CPError ℚ
  | 0, _, s, eps => (s, .ok eps)
  | fuel + 1, rank, s, eps =>
    if rank ≤ desired ∧ rank < maxAls then
      match build s rank.toNat gstep.toNat svdGuess svdRank eps with
      | .error e => (s, .error e)
      | .ok (s1, eps1, _) =>
        computeGeomLoop svdGuess svdRank desired maxAls gstep fuel
          (if gstep ≤ 1 then rank + 1 else rank * gstep) s1 eps1
    else (s, .ok eps)

/-- compute_geometric (lines 202-222).  Both guards (lines 205-210) fire
before the loop, hence before any mutation.  `epsilon = -1.0` (line 211),
`rank = SVD_initial_guess ? SVD_rank : 1` (line 212). -/
def compute_geometric (s : EngineState) (desired gstep : Int) (svdGuess : Bool)
    (svdRank maxAls : Int) (calculateEpsilon : Bool) : EngineState × Except CPError ℚ :=
  if gstep ≤ 0 then (s, .error .invalidArgument)
  else if svdGuess ∧ svdRank > desired then (s, .error .invalidArgument)
  else
    computeGeomLoop svdGuess svdRank.toNat desired maxAls gstep
      (desired.toNat + maxAls.toNat + 1) (if svdGuess then svdRank else 1) s (-1)

/-- One ALS sweep: the for loop over modes in ALS (lines 638-650).  The factor
set is a function `Nat → α` over positions 0..ndim (position ndim holds the
weight vector lambda).  The effect of direct(i, ...) is abstracted as an
update function `upd i A = (new A[i], new A[ndim])`: direct writes A[n]
(line 929) and, through normCol(an) (line 928 and lines 984-1000), A[ndim],
and reads but does not write all other positions.  The three branches mirror
lines 640-649: `symm_dims[i] == i` runs direct, `symm_dims[i] < i` copies
`A[i] = A[symm_dims[i]]` (line 645), anything else aborts (line 648). -/
def sweepAux {α : Type} (symm : Nat → Nat) (upd : Nat → (Nat → α) → α × α) (ndim : Nat) :
    Nat → Nat → (Nat → α) → Except CPError (Nat → α)
  | 0, _, A => .ok A
  | fuel + 1, i, A =>
    if i < ndim then
      if symm i = i then
        sweepAux symm upd ndim fuel (i + 1)
          (fun k => if k = ndim then (upd i A).2 else if k = i then (upd i A).1 else A k)
      else if symm i < i then
        sweepAux symm upd ndim fuel (i + 1) (fun k => if k = i then A (symm i) else A k)
      else .error .invalidSymmetry
    else .ok A

/-- One full sweep over modes 0..ndim-1 (the body of the while loop in ALS,
executed immediately before the convergence test `converge_test(A)` on
line 652). -/
def sweep {α : Type} (symm : Nat → Nat) (upd : Nat → (Nat → α) → α × α) (ndim : Nat)
    (A : Nat → α) : Except CPError (Nat → α) :=
  sweepAux symm upd ndim ndim 0 A

/-- Extract the factor set from a sweep result, with a default for the error
case. -/
def exceptGetD {α : Type} (e : Except CPError (Nat → α)) (d : Nat → α) : Nat → α :=
  match e with
  | .ok x => x
  | .error _ => d

/-- Outcome of the solve step of direct (lines 894-921) for one mode update:
whether the square LAPACKE_dgesv solve was attempted (line 903, guarded by
`if (matlab)` on line 895), whether the SVD pseudo-inverse fallback was used
(line 913-915, guarded by `if (!matlab)`), and the value of the by-reference
flag `matlab` after the call (set false on solve failure, line 910). -/
structure SolveOutcome where
  attempted : Bool
  usedFallback : Bool
  matlabAfter : Bool
deriving DecidableEq

/-- The solve step of direct (lines 894-921): with the current `matlab` flag
and the success of the dgesv solve (`info == 0`, line 904) as inputs. -/
def solveStep (matlab solveOk : Bool) : SolveOutcome :=
  if matlab then
    if solveOk then ⟨true, false, true⟩ else ⟨true, true, false⟩
  else ⟨false, true, false⟩

/-- The sequence of solve outcomes across the mode updates of one ALS call:
ALS initializes the local `bool matlab = fast_pI` (line 633) and passes it by
reference to every direct call (line 641), so a failure in one update clears
the flag for all later updates of that ALS call. -/
def alsSolveSeq (matlab : Bool) : List Bool → List SolveOutcome
  | [] => []
  | ok :: rest => solveStep matlab ok :: alsSolveSeq (solveStep matlab ok).matlabAfter rest

/-- The singular-value threshold of pseudoInverse: `double lr_thresh = 1e-13`
(line 1056). -/
def lr_thresh : ℚ := 1 / 10 ^ 13

/-- The matrix s_inv built by pseudoInverse (lines 1057-1064): filled with 0,
then for each diagonal position `i < R`, `1 / s(i)` when `s(i) > lr_thresh`
and `s(i)` itself otherwise. -/
def sInvEntry (R : Nat) (sv : Nat → ℚ) : Nat → Nat → ℚ := fun i j =>
  if i = j ∧ i < R then (if lr_thresh < sv i then 1 / sv i else sv i) else 0

/-- The per-column sum of squares accumulated by the first loop of
normCol(Tensor&) (lines 991-993): the factor matrix is a row-major flat array
`a` of `size` entries with `rank` columns, and flat index `i` contributes
`a(i) * a(i)` to lambda slot `i % rank`.  (This is the squared 2-norm of
column `j` of the matrix.) -/
def colSumSqFlat (size rank : Nat) (a : Nat → ℚ) (j : Nat) : ℚ :=
  ∑ i ∈ Finset.range size, if i % rank = j then a i * a i else 0

/-- The division loop of normCol (lines 997-999): every flat entry `i` is
divided by the weight `lam (i % rank)` of its column, with no guard against a
zero weight.  `lam` is the weight vector after the sqrt loop (lines 994-996):
the embedding takes it as a parameter constrained by
`lam j * lam j = colSumSqFlat size rank a j` and `0 ≤ lam j` where needed,
which is the defining property of the C library sqrt on exact input. -/
def normColFlat (rank : Nat) (a lam : Nat → ℚ) : Nat → ℚ :=
  fun i => a i / lam (i % rank)

/-- The shapes (extent lists) a reference tensor takes during one direct call.
Mirrors direct's two transient reshapes:
* the side opposite mode n: save `R = tensor_ref.range()` (line 714), resize
  to the 2-D shape `(size/extent(last), extent(last))` (line 728), gemm, then
  `tensor_ref.resize(R)` (line 733);
* the side holding mode n: save `R = tensor_ref.range()` (line 776), resize
  to `(extent(0), size/extent(0))` (line 786), gemm, then resize back
  (line 790). -/
structure DirectShapeTrace where
  otherMid : List Nat
  otherFinal : List Nat
  sideMid : List Nat
  sideFinal : List Nat

/-- The shape effect of direct (lines 697-930) on the reference-tensor pair:
`leftTensor = (n < ndimL - 1)` (line 700) selects which side holds mode n;
the opposite side is reshaped first (lines 708-733), then the side holding n
(lines 773-790).  No other statement of direct writes either reference
tensor; all exits from the function occur after both restores. -/
def directShapePass (leftTensor : Bool) (sL sR : List Nat) : DirectShapeTrace :=
  let other := if leftTensor then sR else sL
  let csize := other.getLastD 1
  let tr := if leftTensor then sL else sR
  let ext0 := tr.headD 1
  { otherMid := [other.prod / csize, csize]
    otherFinal := other
    sideMid := [ext0, tr.prod / ext0]
    sideFinal := tr }

/-- A dense matrix with ℚ entries (value-level view of a factor matrix; the
weight vector lambda is stored as a single-column matrix, accessed at column
0). -/
structure FMat where
  rows : Nat
  cols : Nat
  entry : Nat → Nat → ℚ

/-- Placeholder matrix for out-of-range list access. -/
def dummyM : FMat := ⟨0, 0, fun _ _ => 0⟩

/-- khatri_rao_product(KRP, A[i], hold) (line 364): column-wise Khatri-Rao
product, `hold(i1 * rows(C) + i2, r) = B(i1, r) * C(i2, r)`. -/
def khatriRao (B C : FMat) : FMat :=
  ⟨B.rows * C.rows, B.cols, fun i j => B.entry (i / C.rows) j * C.entry (i % C.rows) j⟩

/-- gemm(CblasNoTrans, CblasTrans, 1.0, B, C, 0.0, hold) (line 371):
`hold(i, j) = Σ_r B(i, r) * C(j, r)`. -/
def matmulNT (B C : FMat) : FMat :=
  ⟨B.rows, C.rows, fun i j => ∑ r ∈ Finset.range B.cols, B.entry i r * C.entry j r⟩

/-- The first scal loop of reconstruct (lines 356-358): column `i` of A[0] is
multiplied by the weight `A[ndim](i)`. -/
def scaleCols (M : FMat) (lam : Nat → ℚ) : FMat :=
  ⟨M.rows, M.cols, fun i j => M.entry i j * lam j⟩

/-- The final scal loop of reconstruct (lines 377-379): column `i` of A[0] is
multiplied by `1 / A[ndim](i)`, with no guard against a zero weight. -/
def unscaleCols (M : FMat) (lam : Nat → ℚ) : FMat :=
  ⟨M.rows, M.cols, fun i j => M.entry i j * (1 / lam j)⟩

/-- get_factor_matrices (lines 330-335): returns A when non-empty, otherwise
aborts ("Attempting to return a NULL object"), i.e. NotReady. -/
def get_factor_matrices (A : List FMat) : Except CPError (List FMat) :=
  if ¬ A.isEmpty then .ok A else .error .notReady

/-- reconstruct (lines 344-381): aborts NotReady when A is empty (lines
345-346); otherwise scales A[0] by the weight vector A[ndim] (lines 356-358),
forms the Khatri-Rao product of factors 0..ndim-2 (the loop on line 363 runs
i = 1 .. A.size() - 3 = ndim - 2), contracts with A[ndim-1] transposed
(line 371), and returns the result (the resize on line 374 reinterprets the
row-major data without changing entries; the unscaling of A[0] on lines
377-379 restores the member A and is embedded as unscaleCols). -/
def reconstruct (ndim : Nat) (A : List FMat) : Except CPError FMat :=
  if A.isEmpty then .error .notReady
  else
    let lam := fun j => (A.getD ndim dummyM).entry j 0
    let A0 := scaleCols (A.getD 0 dummyM) lam
    let KRP := (List.range' 1 (ndim - 2)).foldl (fun K i => khatriRao K (A.getD i dummyM)) A0
    .ok (matmulNT KRP (A.getD (ndim - 1) dummyM))

/-- build passes its epsilon parameter through unchanged: the only statement
of the source that would write it (ALS line 658) is commented out. -/
theorem build_eps_eq (s : EngineState) (rank step : Nat) (g : Bool) (sr : Nat) (eps : ℚ)
    (s1 : EngineState) (e : ℚ) (l : List Nat)
    (h : build s rank step g sr eps = .ok (s1, e, l)) : e = eps := by
  unfold build at h
  split at h
  · split at h
    · exact absurd h (by simp)
    · simp only [Except.ok.injEq, Prod.mk.injEq] at h
      exact h.2.1.symm
  · simp only [Except.ok.injEq, Prod.mk.injEq] at h
    exact h.2.1.symm

theorem natRange_succ (a n : Nat) : natRange a (n + 1) = a :: natRange (a + 1) n := rfl

/-- Behaviour of the compute_error while loop when epsilon enters as
`tcut + 1`: epsilon is never written, the loop exits only when the local rank
counter reaches maxRank, and the build targets are the consecutive naturals
from the entry rank up to maxRank - 1 (the loop grows the target by exactly 1
per round, line 171). -/
theorem computeErrorLoop_spec (tcut : ℚ) (step maxRank : Nat) (g : Bool) (sr : Nat) :
    ∀ (fuel rank : Nat) (s s2 : EngineState) (eps2 : ℚ) (rank2 : Nat) (ts : List Nat),
      maxRank ≤ fuel + rank →
      computeErrorLoop tcut step maxRank g sr fuel rank s (tcut + 1) = .ok (s2, eps2, rank2, ts) →
      eps2 = tcut + 1 ∧ rank2 = max rank maxRank ∧ ts = natRange rank (maxRank - rank) := by
  intro fuel
  induction fuel with
  | zero =>
    intro rank s s2 eps2 rank2 ts hfuel h
    simp only [computeErrorLoop, Except.ok.injEq, Prod.mk.injEq] at h
    obtain ⟨_, h2, h3, h4⟩ := h
    have hr : maxRank - rank = 0 := by omega
    refine ⟨h2.symm, ?_, ?_⟩
    · omega
    · rw [← h4, hr]; rfl
  | succ fuel ih =>
    intro rank s s2 eps2 rank2 ts hfuel h
    rw [computeErrorLoop] at h
    by_cases hc : rank < maxRank
    · rw [if_pos ⟨lt_add_one tcut, hc⟩] at h
      cases hb : build s rank step g sr (tcut + 1) with
      | error e => simp [hb] at h
      | ok v =>
        obtain ⟨s1, eps1, l1⟩ := v
        have heps1 : eps1 = tcut + 1 := build_eps_eq s rank step g sr (tcut + 1) s1 eps1 l1 hb
        simp only [hb] at h
        cases hrec : computeErrorLoop tcut step maxRank g sr fuel (rank + 1) s1 eps1 with
        | error e => simp [hrec] at h
        | ok w =>
          obtain ⟨s3, eps3, rank3, ts3⟩ := w
          simp only [hrec, Except.ok.injEq, Prod.mk.injEq] at h
          obtain ⟨h1, h2, h3, h4⟩ := h
          rw [heps1] at hrec
          obtain ⟨e1, e2, e3⟩ := ih (rank + 1) s1 s3 eps3 rank3 ts3 (by omega) hrec
          refine ⟨by rw [← h2, e1], by omega, ?_⟩
          have hsub : maxRank - rank = (maxRank - (rank + 1)) + 1 := by omega
          rw [← h4, e3, hsub, natRange_succ]
    · rw [if_neg (by omega)] at h
      simp only [Except.ok.injEq, Prod.mk.injEq] at h
      obtain ⟨_, h2, h3, h4⟩ := h
      have hr : maxRank - rank = 0 := by omega
      refine ⟨h2.symm, by omega, ?_⟩
      rw [← h4, hr]; rfl

/-- C1.  The claim fails against the code: compute_error never observes any
decomposition error.  ALS's only statement writing the epsilon parameter
(line 658, `epsilon = norm(reconstruct() - tensor_ref)`) is commented out, so
the local epsilon keeps its initial value `tcutCP + 1` (line 168): the loop
condition `epsilon > tcutCP` (line 169) never becomes false, the loop runs
until the rank counter reaches max_rank, the value returned always exceeds
tcutCP, and the build target rank grows by exactly 1 per round (line 171,
`rank++`) rather than by `step`. -/
theorem compute_error_dead_epsilon (s : EngineState) (tcut : ℚ) (step maxRank : Nat)
    (g : Bool) (sr : Nat) (s2 : EngineState) (e : ℚ) (r : Nat) (ts : List Nat)
    (h : compute_error s tcut step maxRank g sr = .ok (s2, e, r, ts)) :
    e = tcut + 1 ∧ tcut < e ∧ r = max (errStartRank s g sr) maxRank ∧
      ts = natRange (errStartRank s g sr) (maxRank - errStartRank s g sr) := by
  unfold compute_error at h
  have := computeErrorLoop_spec tcut step maxRank g sr maxRank (errStartRank s g sr)
    s s2 e r ts (by omega) h
  exact ⟨this.1, by rw [this.1]; exact lt_add_one tcut, this.2.1, this.2.2⟩

/-- Witness for C1: a concrete run with tcutCP = 1/2, step = 3, max_rank = 4
from an empty engine returns 3/2 (which exceeds tcutCP), stops only at
max_rank, and its build targets 1, 2, 3 grow by 1, not by step = 3. -/
theorem compute_error_dead_epsilon_w :
    (3 / 2 : ℚ) = 1 / 2 + 1 ∧ (1 / 2 : ℚ) < 3 / 2 ∧
      4 = max (errStartRank ⟨none, 4, false⟩ false 0) 4 ∧
      ([1, 2, 3] : List Nat)
        = natRange (errStartRank ⟨none, 4, false⟩ false 0)
            (4 - errStartRank ⟨none, 4, false⟩ false 0) :=
  compute_error_dead_epsilon ⟨none, 4, false⟩ (1 / 2) 3 4 false 0
    ⟨some 3, 4, false⟩ (3 / 2) 4 [1, 2, 3]
    (by norm_num [compute_error, computeErrorLoop, build, errStartRank, rankSteps, rankStepsAux])

/-- C2.  The claim fails against the code: every successful compute_rank call
returns -1 whether or not calculate_epsilon was requested.  epsilon is
initialized to -1.0 (line 134) and the only statement that would write it
(ALS line 658) is commented out. -/
theorem compute_rank_always_neg_one (s : EngineState) (rank step : Int) (g : Bool)
    (sr : Int) (ce : Bool) (e : ℚ)
    (h : (compute_rank s rank step g sr ce).2 = .ok e) : e = -1 := by
  unfold compute_rank at h
  split at h
  · exact absurd h (by simp)
  · split at h
    · exact absurd h (by simp)
    · cases hb : build s rank.toNat step.toNat g sr.toNat (-1) with
      | error er => simp [hb] at h
      | ok v =>
        obtain ⟨s1, eps1, l1⟩ := v
        simp only [hb, Except.ok.injEq] at h
        rw [← h]
        exact build_eps_eq s rank.toNat step.toNat g sr.toNat (-1) s1 eps1 l1 hb

/-- Witness for C2: a concrete call with calculate_epsilon = true still
returns -1. -/
theorem compute_rank_always_neg_one_w : (-1 : ℚ) = -1 :=
  compute_rank_always_neg_one ⟨none, 4, false⟩ 2 1 false 0 true (-1)
    (by norm_num [compute_rank, build, rankSteps, rankStepsAux])

/-- C3, counterexample.  A build call whose target rank (2) equals the rank
the factor matrices have already achieved (A[0].extent(1) = 2) executes NO
ALS pass: the stepwise loop (line 542) runs zero iterations and the forced
extra sweep (lines 605-607) is gated on `factors_set`, which is initialized
false (line 395) and never assigned anywhere in the source, so the call is a
no-op on the factor set. -/
theorem build_at_achieved_rank_noop_cex :
    build ⟨some 2, 4, false⟩ 2 1 false 0 (-1) = .ok (⟨some 2, 4, false⟩, -1, []) := rfl

/-- C3, amended.  For every build call whose target rank is at most the
already-achieved rank, the list of executed ALS passes is `[rank]` when
`factors_set` is true and empty when it is false; since nothing in the source
ever sets `factors_set`, such calls perform no optimization pass. -/
theorem build_extra_sweep_requires_factors_set (s : EngineState) (r rank step : Nat)
    (g : Bool) (sr : Nat) (eps : ℚ) (h1 : s.achieved = some r) (h2 : rank ≤ r) :
    build s rank step g sr eps = .ok (s, eps, if s.factorsSet then [rank] else []) := by
  have hnone : s.achieved.isNone = false := by rw [h1]; rfl
  have hranks : rankSteps r rank step = [] := by
    unfold rankSteps
    have hz : rank - r = 0 := by omega
    rw [hz]; rfl
  unfold build
  rw [hnone]
  simp only [Bool.false_and, Bool.false_eq_true, if_false, h1, hranks]
  cases hf : s.factorsSet <;> simp [hf]

/-- Witness for C3's amended statement, at a hypothetical state with
`factors_set = true` and achieved rank 5. -/
theorem build_extra_sweep_requires_factors_set_w :
    build ⟨some 5, 4, true⟩ 5 1 false 0 (-1)
      = .ok (⟨some 5, 4, true⟩, -1,
          if (⟨some 5, 4, true⟩ : EngineState).factorsSet then [5] else []) :=
  build_extra_sweep_requires_factors_set ⟨some 5, 4, true⟩ 5 5 1 false 0 (-1) rfl
    (by decide)

/-- C7.  Each invalid-argument case — compute_rank with rank ≤ 0 (line 132),
compute_rank with SVD_initial_guess and SVD_rank > rank (line 133),
compute_geometric with geometric_step ≤ 0 (lines 205-207), and
compute_geometric with SVD_initial_guess and SVD_rank > desired_rank (lines
208-210) — fails with InvalidArgument and leaves the engine state unchanged:
all four guards run before build, which is the only mutating call. -/
theorem invalid_args_fail_before_mutation (s : EngineState)
    (rank step svdRank dr gstep gsr maxAls : Int) (g : Bool) (ce : Bool) :
    (rank ≤ 0 → compute_rank s rank step g svdRank ce = (s, .error .invalidArgument)) ∧
    (g = true → svdRank > rank →
      compute_rank s rank step g svdRank ce = (s, .error .invalidArgument)) ∧
    (gstep ≤ 0 →
      compute_geometric s dr gstep g gsr maxAls ce = (s, .error .invalidArgument)) ∧
    (g = true → gsr > dr →
      compute_geometric s dr gstep g gsr maxAls ce = (s, .error .invalidArgument)) := by
  refine ⟨?_, ?_, ?_, ?_⟩
  · intro h
    simp [compute_rank, h]
  · intro hg h
    by_cases h0 : rank ≤ 0
    · simp [compute_rank, h0]
    · simp [compute_rank, h0, hg, h]
  · intro h
    simp [compute_geometric, h]
  · intro hg h
    by_cases h0 : gstep ≤ 0
    · simp [compute_geometric, h0]
    · simp [compute_geometric, h0, hg, h]

/-- Witness for C7: all four invalid-argument cases at concrete inputs. -/
theorem invalid_args_fail_before_mutation_w :
    compute_rank ⟨some 2, 4, false⟩ 0 1 true 3 false
        = (⟨some 2, 4, false⟩, .error .invalidArgument) ∧
      compute_rank ⟨some 2, 4, false⟩ 2 1 true 3 false
        = (⟨some 2, 4, false⟩, .error .invalidArgument) ∧
      compute_geometric ⟨some 2, 4, false⟩ 6 0 true 3 20 false
        = (⟨some 2, 4, false⟩, .error .invalidArgument) ∧
      compute_geometric ⟨some 2, 4, false⟩ 6 2 true 7 20 false
        = (⟨some 2, 4, false⟩, .error .invalidArgument) :=
  ⟨(invalid_args_fail_before_mutation ⟨some 2, 4, false⟩ 0 1 3 6 2 3 20 true false).1
      (by decide),
    (invalid_args_fail_before_mutation ⟨some 2, 4, false⟩ 2 1 3 6 2 3 20 true false).2.1
      rfl (by decide),
    (invalid_args_fail_before_mutation ⟨some 2, 4, false⟩ 2 1 3 6 0 3 20 true false).2.2.1
      (by decide),
    (invalid_args_fail_before_mutation ⟨some 2, 4, false⟩ 2 1 3 6 2 7 20 true false).2.2.2
      rfl (by decide)⟩

/-- Invariant of the mode loop of ALS: processing modes i, i+1, ... leaves the
positions below i untouched, and on success every aliased position at or
above i equals its source in the final factor set.  (A direct update at mode
k writes only positions k and ndim; an alias step at mode k writes only
position k; positions strictly below the loop index are therefore frozen.) -/
theorem sweepAux_alias {α : Type} (symm : Nat → Nat) (upd : Nat → (Nat → α) → α × α)
    (ndim : Nat) (hv : ∀ k, k < ndim → symm k ≤ k) :
    ∀ (fuel i : Nat) (A : Nat → α), ndim ≤ fuel + i → i ≤ ndim →
      ∃ A2, sweepAux symm upd ndim fuel i A = .ok A2 ∧
        (∀ k, k < i → A2 k = A k) ∧
        (∀ k, i ≤ k → k < ndim → symm k < k → A2 k = A2 (symm k)) := by
  intro fuel
  induction fuel with
  | zero =>
    intro i A hfuel hi
    refine ⟨A, rfl, fun k _ => rfl, fun k hik hk _ => absurd hk (by omega)⟩
  | succ fuel ih =>
    intro i A hfuel hi
    by_cases hlt : i < ndim
    · rw [sweepAux, if_pos hlt]
      by_cases heq : symm i = i
      · rw [if_pos heq]
        obtain ⟨A2, hrun, hfroz, halias⟩ := ih (i + 1)
          (fun k => if k = ndim then (upd i A).2 else if k = i then (upd i A).1 else A k)
          (by omega) (by omega)
        refine ⟨A2, hrun, ?_, ?_⟩
        · intro k hk
          rw [hfroz k (by omega)]
          have hkn : k ≠ ndim := by omega
          have hki : k ≠ i := by omega
          simp [hkn, hki]
        · intro k hik hk hsk
          by_cases hki : k = i
          · rw [hki] at hsk
            exact absurd hsk (by omega)
          · exact halias k (by omega) hk hsk
      · by_cases hlt2 : symm i < i
        · rw [if_neg heq, if_pos hlt2]
          obtain ⟨A2, hrun, hfroz, halias⟩ := ih (i + 1)
            (fun k => if k = i then A (symm i) else A k) (by omega) (by omega)
          refine ⟨A2, hrun, ?_, ?_⟩
          · intro k hk
            rw [hfroz k (by omega)]
            have hki : k ≠ i := by omega
            simp [hki]
          · intro k hik hk hsk
            by_cases hki : k = i
            · rw [hki]
              rw [hfroz i (by omega), hfroz (symm i) (by omega)]
              have hsi : ¬ symm i = i := Nat.ne_of_lt hlt2
              simp [hsi]
            · exact halias k (by omega) hk hsk
        · exact absurd (hv i hlt) (by omega)
    · rw [sweepAux, if_neg hlt]
      refine ⟨A, rfl, fun k _ => rfl, fun k hik hk _ => absurd hk (by omega)⟩

/-- C4.  After every completed sweep of the ALS mode loop (lines 638-650),
every mode i with `symm_dims[i] = j < i` holds a factor identical to mode j:
the alias copy `A[i] = A[symm_dims[i]]` (line 645) happens at position i in
increasing mode order, position j was finalized earlier in the same sweep,
and no later step of the sweep writes either position before the convergence
predicate is evaluated (line 652) directly after the loop. -/
theorem sweep_alias_identical {α : Type} (symm : Nat → Nat) (upd : Nat → (Nat → α) → α × α)
    (ndim : Nat) (A : Nat → α) (hv : ∀ k, k < ndim → symm k ≤ k) :
    (sweep symm upd ndim A).isOk = true ∧
      (∀ k, k < ndim → symm k < k →
        exceptGetD (sweep symm upd ndim A) A k
          = exceptGetD (sweep symm upd ndim A) A (symm k)) := by
  obtain ⟨A2, hrun, _, halias⟩ :=
    sweepAux_alias symm upd ndim hv ndim 0 A (by omega) (by omega)
  rw [sweep, hrun]
  exact ⟨rfl, fun k hk hsk => halias k (Nat.zero_le k) hk hsk⟩

/-- Witness for C4: a three-mode sweep with `map = [0, 1, 0]` (mode 2 aliased
to mode 0) over natural-number factor values; after the sweep, position 2
equals position 0. -/
theorem sweep_alias_identical_w :
    (sweep (fun i => if i = 2 then 0 else i) (fun i A => (A i + i, A 0)) 3
        (fun k => k)).isOk = true ∧
      exceptGetD
          (sweep (fun i => if i = 2 then 0 else i) (fun i A => (A i + i, A 0)) 3
            (fun k => k)) (fun k => k) 2
        = exceptGetD
            (sweep (fun i => if i = 2 then 0 else i) (fun i A => (A i + i, A 0)) 3
              (fun k => k)) (fun k => k) 0 :=
  ⟨(sweep_alias_identical (fun i => if i = 2 then 0 else i)
      (fun i A => (A i + i, A 0)) 3 (fun k => k) (by decide)).1,
    (sweep_alias_identical (fun i => if i = 2 then 0 else i)
      (fun i A => (A i + i, A 0)) 3 (fun k => k) (by decide)).2 2 (by decide) (by decide)⟩

/-- Characterization of the solve outcomes across one ALS call: the k-th mode
update attempts the square solve iff the initial flag was set and every
earlier solve in the same ALS call succeeded, and uses the pseudo-inverse
fallback iff the solve was not attempted or the attempted solve failed. -/
theorem alsSolveSeq_spec (oks : List Bool) :
    ∀ (m : Bool) (k : Nat), k < oks.length →
      ((alsSolveSeq m oks).getD k ⟨false, false, false⟩).attempted
          = (m && (oks.take k).all id) ∧
      ((alsSolveSeq m oks).getD k ⟨false, false, false⟩).usedFallback
          = !(((alsSolveSeq m oks).getD k ⟨false, false, false⟩).attempted
                && oks.getD k false) := by
  induction oks with
  | nil =>
    intro m k hk
    simp at hk
  | cons ok rest ih =>
    intro m k hk
    cases k with
    | zero => cases m <;> cases ok <;> simp [alsSolveSeq, solveStep]
    | succ k =>
      have hm : (solveStep m ok).matlabAfter = (m && ok) := by
        cases m <;> cases ok <;> rfl
      have hrec := ih (m && ok) k (by simpa using hk)
      simp only [alsSolveSeq, List.getD_cons_succ, List.take_succ_cons, List.all_cons,
        id_eq, hm]
      refine ⟨?_, hrec.2⟩
      rw [hrec.1, Bool.and_assoc]

/-- C5, counterexample.  With fast_pI left at its default (true), one ALS call
whose first mode update's dgesv solve fails: at the second mode update the
solve would succeed, yet it is never attempted and the SVD pseudo-inverse
fallback is used anyway, because the failure cleared the by-reference
`matlab` flag (line 910) for the remainder of the ALS call.  This refutes
both "a direct square linear solve is attempted first" and "if and only if
that solve fails does the engine fall back". -/
theorem fallback_without_attempt_cex :
    ((alsSolveSeq true [false, true]).getD 1 ⟨false, false, false⟩).attempted = false ∧
      ((alsSolveSeq true [false, true]).getD 1 ⟨false, false, false⟩).usedFallback
        = true := by
  decide

/-- C5, amended.  In every Direct-Mode-Update solve step, the direct square
solve is attempted iff the matlab flag is currently set (initialized from the
caller's fast_pI at the start of the ALS call, line 633, and cleared for the
rest of that call by any solve failure, line 910); the SVD pseudo-inverse
fallback is used iff the solve was not attempted or it failed; and the
pseudo-inverse inverts each singular value strictly greater than 1e-13 and
passes each singular value at or below 1e-13 through unmodified (lines
1056-1064). -/
theorem solve_attempted_iff_flag :
    (∀ (m : Bool) (oks : List Bool) (k : Nat), k < oks.length →
      ((alsSolveSeq m oks).getD k ⟨false, false, false⟩).attempted
          = (m && (oks.take k).all id) ∧
      ((alsSolveSeq m oks).getD k ⟨false, false, false⟩).usedFallback
          = !(((alsSolveSeq m oks).getD k ⟨false, false, false⟩).attempted
                && oks.getD k false)) ∧
    (∀ (R : Nat) (sv : Nat → ℚ) (i : Nat), i < R →
      (lr_thresh < sv i → sInvEntry R sv i i = 1 / sv i) ∧
      (¬ lr_thresh < sv i → sInvEntry R sv i i = sv i)) := by
  constructor
  · intro m oks k hk
    exact alsSolveSeq_spec oks m k hk
  · intro R sv i hi
    constructor <;> intro h <;> simp [sInvEntry, hi, h]

/-- Witness for C5's amended statement: the run of the counterexample above
satisfies the flag characterization, and a singular value of 1 (above the
threshold) is inverted while one of 0 (at or below it) passes through. -/
theorem solve_attempted_iff_flag_w :
    (((alsSolveSeq true [false, true]).getD 1 ⟨false, false, false⟩).attempted
        = (true && (([false, true] : List Bool).take 1).all id) ∧
      ((alsSolveSeq true [false, true]).getD 1 ⟨false, false, false⟩).usedFallback
        = !(((alsSolveSeq true [false, true]).getD 1 ⟨false, false, false⟩).attempted
              && ([false, true] : List Bool).getD 1 false)) ∧
      (lr_thresh < (1 : ℚ) → sInvEntry 2 (fun _ => 1) 0 0 = 1 / 1) ∧
      (¬ lr_thresh < (1 : ℚ) → sInvEntry 2 (fun _ => 1) 0 0 = 1) :=
  ⟨solve_attempted_iff_flag.1 true [false, true] 1 (by decide),
    solve_attempted_iff_flag.2 2 (fun _ => 1) 0 (by decide)⟩

/-- C6.  direct ends every mode update with `normCol(an); A[n] = an` (lines
928-929).  For the weight vector `lam` computed by normCol's accumulate-and-
sqrt loops (lines 991-996, characterized by `lam j * lam j` equalling the
column's sum of squares), every column of the updated factor matrix has
squared 2-norm exactly 1 after the division loop (lines 997-999), and the
weight written into A[ndim] carries the removed scale: multiplying the
normalized column by its weight restores the original column.  (Requires a
nonzero column norm; the zero case is the subject of the division-by-zero
analysis below.) -/
theorem normCol_unit_columns (size rank : Nat) (a lam : Nat → ℚ) (j : Nat)
    (hsq : lam j * lam j = colSumSqFlat size rank a j) (hnz : lam j ≠ 0) :
    colSumSqFlat size rank (normColFlat rank a lam) j = 1 ∧
      ∀ i, i % rank = j → lam j * normColFlat rank a lam i = a i := by
  constructor
  · unfold colSumSqFlat normColFlat
    have hterm : ∀ i, (if i % rank = j
          then (a i / lam (i % rank)) * (a i / lam (i % rank)) else 0)
        = (if i % rank = j then a i * a i else 0) / (lam j * lam j) := by
      intro i
      by_cases h : i % rank = j
      · rw [if_pos h, if_pos h, h, div_mul_div_comm]
      · rw [if_neg h, if_neg h, zero_div]
    rw [Finset.sum_congr rfl (fun i _ => hterm i), ← Finset.sum_div]
    unfold colSumSqFlat at hsq
    rw [← hsq]
    exact div_self (mul_ne_zero hnz hnz)
  · intro i hi
    unfold normColFlat
    rw [hi, mul_comm]
    exact div_mul_cancel₀ (a i) hnz

/-- Witness for C6: a 2x2 factor matrix stored flat as 3, 0, 4, 0; its column
0 holds 3 and 4, with 2-norm 5; after normCol that column has squared norm 1
and the weight 5 times the normalized entry at flat index 2 gives back 4. -/
theorem normCol_unit_columns_w :
    colSumSqFlat 4 2 (normColFlat 2 (fun i => [(3 : ℚ), 0, 4, 0].getD i 0) (fun _ => 5)) 0
        = 1 ∧
      (fun _ => (5 : ℚ)) 0
          * normColFlat 2 (fun i => [(3 : ℚ), 0, 4, 0].getD i 0) (fun _ => 5) 2
        = [(3 : ℚ), 0, 4, 0].getD 2 0 :=
  have h := normCol_unit_columns 4 2 (fun i => [(3 : ℚ), 0, 4, 0].getD i 0) (fun _ => 5) 0
    (by norm_num [colSumSqFlat, Finset.sum_range_succ]) (by norm_num)
  ⟨h.1, h.2 2 rfl⟩

/-- C10.  Neither division guards its divisor.  For a factor matrix with an
all-zero column j, the weight computed by normCol's loops (lines 991-996) is
0 and the division loop (lines 997-999) divides every entry of column j by
that zero weight.  In reconstruct, the final scal loop (lines 377-379)
multiplies column j of A[0] by `1 / A[ndim](j)` even when the weight
`A[ndim](j)` is 0; in exact arithmetic the unscaling then fails to restore
the scaled entry (over the doubles of the source these divisions produce
non-finite values). -/
theorem unguarded_zero_divisions :
    (∀ (size rank : Nat) (a lam : Nat → ℚ) (j : Nat),
      (∀ i, i < size → i % rank = j → a i = 0) →
      lam j * lam j = colSumSqFlat size rank a j →
      lam j = 0 ∧ ∀ i, i % rank = j → normColFlat rank a lam i = a i / 0) ∧
    (∀ (M : FMat) (lam : Nat → ℚ) (i j : Nat), lam j = 0 →
      (unscaleCols M lam).entry i j = M.entry i j * (1 / 0) ∧
      (M.entry i j ≠ 0 →
        (unscaleCols (scaleCols M lam) lam).entry i j ≠ M.entry i j)) := by
  constructor
  · intro size rank a lam j hz hsq
    have hS : colSumSqFlat size rank a j = 0 := by
      unfold colSumSqFlat
      refine Finset.sum_eq_zero ?_
      intro i hi
      by_cases h : i % rank = j
      · rw [if_pos h, hz i (Finset.mem_range.mp hi) h, mul_zero]
      · rw [if_neg h]
    have hlam : lam j = 0 := mul_self_eq_zero.mp (hsq.trans hS)
    refine ⟨hlam, ?_⟩
    intro i hi
    unfold normColFlat
    rw [hi, hlam]
  · intro M lam i j hl
    constructor
    · show M.entry i j * (1 / lam j) = M.entry i j * (1 / 0)
      rw [hl]
    · intro hne
      show (M.entry i j * lam j) * (1 / lam j) ≠ M.entry i j
      rw [hl]
      simpa using Ne.symm hne

/-- Witness for C10: an all-zero column makes normCol's divisor 0 and the
divided entry is literally `0 / 0`; a zero weight makes reconstruct's
unscaling factor `1 / 0`, and unscaling after scaling does not restore the
entry 2. -/
theorem unguarded_zero_divisions_w :
    ((fun _ => (0 : ℚ)) 0 = 0 ∧
      normColFlat 1 (fun _ => (0 : ℚ)) (fun _ => (0 : ℚ)) 0 = (fun _ => (0 : ℚ)) 0 / 0) ∧
      (unscaleCols ⟨1, 1, fun _ _ => 2⟩ (fun _ => 0)).entry 0 0
          = FMat.entry ⟨1, 1, fun _ _ => 2⟩ 0 0 * (1 / 0) ∧
      (unscaleCols (scaleCols ⟨1, 1, fun _ _ => 2⟩ (fun _ => 0)) (fun _ => 0)).entry 0 0
          ≠ FMat.entry ⟨1, 1, fun _ _ => 2⟩ 0 0 :=
  have h1 := unguarded_zero_divisions.1 1 1 (fun _ => (0 : ℚ)) (fun _ => (0 : ℚ)) 0
    (fun _ _ _ => rfl) (by norm_num [colSumSqFlat])
  have h2 := unguarded_zero_divisions.2 ⟨1, 1, fun _ _ => 2⟩ (fun _ => 0) 0 0 rfl
  ⟨⟨h1.1, h1.2 0 rfl⟩, h2.1, h2.2 (by norm_num)⟩

/-- The transient 2-D shape `(size / extent(last), extent(last))` used by the
first reshape of direct (line 728) holds exactly the elements of the original
shape: the last extent divides the total size. -/
theorem reshape_last_preserves_size (l : List Nat) (h : l ≠ []) :
    ([l.prod / l.getLastD 1, l.getLastD 1] : List Nat).prod = l.prod := by
  have hdvd : l.getLastD 1 ∣ l.prod := by
    rw [List.getLastD_eq_getLast?, List.getLast?_eq_getLast l h]
    exact List.dvd_prod (List.getLast_mem h)
  simp only [List.prod_cons, List.prod_nil, mul_one]
  exact Nat.div_mul_cancel hdvd

/-- The transient 2-D shape `(extent(0), size / extent(0))` used by the second
reshape of direct (line 786) holds exactly the elements of the original
shape: the leading extent divides the total size. -/
theorem reshape_head_preserves_size (l : List Nat) (h : l ≠ []) :
    ([l.headD 1, l.prod / l.headD 1] : List Nat).prod = l.prod := by
  have hdvd : l.headD 1 ∣ l.prod := by
    rw [List.headD_eq_head?, List.head?_eq_head h]
    exact List.dvd_prod (List.head_mem h)
  simp only [List.prod_cons, List.prod_nil, mul_one]
  exact Nat.mul_div_cancel' hdvd

/-- C8.  Each reference tensor reshaped by direct is restored to its saved
original range before control returns (save on lines 714/776, restore on
lines 733/790), and each transient 2-D view preserves the element count.  In
the source, the only operations executed between a resize and its matching
restore are gemm calls whose operand shapes are consistent by construction,
so the normal path modelled here is the only exit path through the reshaped
window; every abort point of direct (line 648 is in ALS; lines 903-910 and
pseudoInverse's aborts come after line 790) sees both tensors already
restored. -/
theorem direct_restores_reference_shapes (lt : Bool) (sL sR : List Nat)
    (hL : sL ≠ []) (hR : sR ≠ []) :
    (directShapePass lt sL sR).otherFinal = (if lt then sR else sL) ∧
      (directShapePass lt sL sR).sideFinal = (if lt then sL else sR) ∧
      (directShapePass lt sL sR).otherMid.prod = (if lt then sR else sL).prod ∧
      (directShapePass lt sL sR).sideMid.prod = (if lt then sL else sR).prod := by
  have hother : (if lt then sR else sL) ≠ [] := by cases lt <;> simpa
  have hside : (if lt then sL else sR) ≠ [] := by cases lt <;> simpa
  exact ⟨rfl, rfl, reshape_last_preserves_size (if lt then sR else sL) hother,
    reshape_head_preserves_size (if lt then sL else sR) hside⟩

/-- Witness for C8: a mode on the left tensor with shapes (2,3) and (2,5);
both tensors end with their original shapes and both transient views keep 6
and 10 elements respectively. -/
theorem direct_restores_reference_shapes_w :
    (directShapePass true [2, 3] [2, 5]).otherFinal = (if true then [2, 5] else [2, 3]) ∧
      (directShapePass true [2, 3] [2, 5]).sideFinal = (if true then [2, 3] else [2, 5]) ∧
      (directShapePass true [2, 3] [2, 5]).otherMid.prod
        = (if true then [2, 5] else [2, 3] : List Nat).prod ∧
      (directShapePass true [2, 3] [2, 5]).sideMid.prod
        = (if true then [2, 3] else [2, 5] : List Nat).prod :=
  direct_restores_reference_shapes true [2, 3] [2, 5] (by decide) (by decide)

/-- C9.  With an empty factor-matrix set (no build call has produced
factors), both get_factor_matrices (lines 330-335) and reconstruct (lines
344-346) abort with the NotReady error before doing anything else, returning
nothing. -/
theorem empty_factor_set_not_ready :
    get_factor_matrices [] = .error .notReady ∧
      ∀ ndim : Nat, reconstruct ndim [] = .error .notReady :=
  ⟨rfl, fun _ => rfl⟩

end BtasCPDF
